import Mathlib

/-!
Verification of the mooseherder exodus-reading pipeline.

This file gives a shallow embedding of `src/mooseherder/exodusreader.py`.
An exodus container opened through netCDF is modelled as a finite map from
string keys to stored values (`Dataset`): a value is either a fixed-width
character name table (`Val.strs`), a one-dimensional numeric array
(`Val.num1`) or a two-dimensional numeric array (`Val.num2`).  Stored
numbers are opaque to the reader (they are only moved around, never
computed with), so they are represented as `Int`.

Python dictionaries are modelled as association lists with insert-or-
overwrite semantics (`dinsert`), and Python exceptions as the `Except`
monad over the `PyErr` error type.
-/

namespace Mooseherder

/-- A value stored under one key of a netCDF dataset: a character name
table, a one-dimensional numeric array, or a two-dimensional numeric
array (row major, as stored in the file). -/
inductive Val where
  | strs (ns : List String)
  | num1 (xs : List Int)
  | num2 (m : List (List Int))
deriving Repr, DecidableEq

/-- A numpy numeric array as handled by the reader: either 1-D or 2-D. -/
inductive NumArr where
  | one (xs : List Int)
  | two (m : List (List Int))
deriving Repr, DecidableEq

/-- The Python exceptions that the translated code can raise. -/
inductive PyErr where
  | indexError
  | typeError
  | attributeError
  | keyError
  | runtimeError
  | valueError
  | fileNotFoundError
deriving Repr, DecidableEq

/-- First component of an array shape: the length of a 1-D array or the
row count of a 2-D array (`arr.shape[0]` in numpy). -/
def NumArr.shape0 : NumArr → Nat
  | .one xs => xs.length
  | .two m => m.length

/-- Lookup of a key in the variables of a dataset (first match; keys are
unique in a well-formed dataset). -/
def findVal : List (String × Val) → String → Option Val
  | [], _ => none
  | p :: ps, k => if p.1 = k then some p.2 else findVal ps k

/-- The five fixed-width character name tables of the exodus convention. -/
def nameTableKeys : List String :=
  ["name_nod_var", "name_elem_var", "name_glo_var", "ss_names", "eb_names"]

/-- Keys that always hold one-dimensional numeric arrays in an exodus
file: nodal coordinates and the time vector. -/
def oneDimKeys : List String := ["coordx", "coordy", "coordz", "time_whole"]

/-- Whether a stored value is a character name table. -/
def Val.isStrs : Val → Bool
  | .strs _ => true
  | _ => false

/-- Whether a stored value is a one-dimensional numeric array. -/
def Val.isNum1 : Val → Bool
  | .num1 _ => true
  | _ => false

/-- All keys of an association list are distinct. -/
def keysNodup : List String → Bool
  | [] => true
  | k :: ks => !(ks.contains k) && keysNodup ks

/-- Well-formedness of the variables of a netCDF exodus dataset: keys are
unique (netCDF variable names are), the name-table keys hold character
data, the coordinate and time keys hold 1-D numeric data, and every
other key holds numeric data. -/
def wellFormedVars (vars : List (String × Val)) : Bool :=
  keysNodup (vars.map Prod.fst) &&
  vars.all (fun p =>
    if nameTableKeys.contains p.1 then p.2.isStrs
    else if oneDimKeys.contains p.1 then p.2.isNum1
    else !p.2.isStrs)

/-- A netCDF dataset as opened by `ExodusReader.__init__`: a finite map
from variable keys to stored values, with the exodus typing discipline. -/
structure Dataset where
  vars : List (String × Val)
  wf : wellFormedVars vars = true

/-- Membership test and lookup of `self._data.variables[key]`. -/
def Dataset.find (d : Dataset) (key : String) : Option Val :=
  findVal d.vars key

/-- Python dict assignment `m[k] = v`: overwrite the value if the key is
already present, otherwise append the new pair at the end. -/
def dinsert {K V : Type} [DecidableEq K] (m : List (K × V)) (k : K) (v : V) :
    List (K × V) :=
  if m.any (fun p => decide (p.1 = k)) then
    m.map (fun p => if p.1 = k then (k, v) else p)
  else
    m ++ [(k, v)]

/-- The keys of a Python dict modelled as an association list. -/
def dkeys {K V : Type} (m : List (K × V)) : List K :=
  m.map Prod.fst

/-- Byte codes of one fixed-width name, as numpy sees a character array. -/
def charCodes (s : String) : List Int :=
  s.toList.map (fun c => (c.toNat : Int))

/-- First index of a name in a name array: `np.where(all_names == nm)[0]`
restricted to its first element, `none` when there is no match. -/
def firstIdx (nm : String) : List String → Option Nat
  | [] => none
  | x :: xs => if x = nm then some 0 else (firstIdx nm xs).map (· + 1)

/-- First index of a name where the name array may be absent (`None`):
comparing `None == nm` in numpy yields no match positions. -/
def npFirstIdx (all_names : Option (List String)) (nm : String) : Option Nat :=
  match all_names with
  | none => none
  | some ns => firstIdx nm ns

/-- The composite `np.vstack((x, y, z)).T` for three 1-D arrays: row `i`
of the result is `[x i, y i, z i]`.  numpy requires the three arrays to
have equal length (`get_coords` checks this and raises otherwise); on
unequal lengths this model truncates at the shortest, which is never
reached from `get_coords`. -/
def npVstackT : List Int → List Int → List Int → List (List Int)
  | a :: as, b :: bs, c :: cs => [a, b, c] :: npVstackT as bs cs
  | _, _, _ => []

namespace ExodusReader

/-- `ExodusReader.get_names`: extract a list of names from the dataset;
`none` when the key is `None` or absent.  The catch-all numeric branch is
unreachable for well-formed datasets, since `get_names` is only invoked
on the five name-table keys, which hold character data. -/
def get_names (d : Dataset) (key : Option String) : Option (List String) :=
  match key with
  | none => none
  | some k =>
    match d.find k with
    | some (.strs ns) => some ns
    | some _ => some []
    | none => none

/-- `ExodusReader.get_var`: extract a numeric variable and transpose it
(`np.array(self._data.variables[key]).T`); an absent key (including a
`None` key, as passed by `get_sidesets` for an unresolved side-set name)
yields an empty array.  Transposing a 1-D array is the identity; a
character variable reads as its byte matrix. -/
def get_var (d : Dataset) (key : Option String) : NumArr :=
  match key with
  | none => .one []
  | some k =>
    match d.find k with
    | none => .one []
    | some (.num1 xs) => .one xs
    | some (.num2 m) => .two m.transpose
    | some (.strs ns) => .two (ns.map charCodes).transpose

/-- `ExodusReader.get_key`: build the dataset key for a named variable
from the 1-based position of its first occurrence in the name table;
`none` when the name does not occur. -/
def get_key (name : String) (all_names : List String) (key_tag : String) :
    Option String :=
  match firstIdx name all_names with
  | none => none
  | some i => some (key_tag ++ toString (i + 1))

/-- `ExodusReader.get_num_elem_blocks`: `self.get_names('eb_names').shape[0]`.
When the `eb_names` table is absent, `get_names` returns `None` and taking
`.shape` of `None` raises `AttributeError`. -/
def get_num_elem_blocks (d : Dataset) : Except PyErr Nat :=
  match get_names d (some "eb_names") with
  | none => .error .attributeError
  | some ns => .ok ns.length

/-- `ExodusReader.get_connectivity_names`: probe the keys `connect1` ..
`connectB` for `B` element blocks and keep those present in the file. -/
def get_connectivity_names (d : Dataset) : Except PyErr (List String) :=
  match get_num_elem_blocks d with
  | .error e => .error e
  | .ok nb =>
      .ok (((List.range nb).map (fun bb => "connect" ++ toString (bb + 1))).filter
        (fun k => (d.find k).isSome))

/-- `ExodusReader.get_connectivity`: a dict mapping each present
connectivity key to its table. -/
def get_connectivity (d : Dataset) : Except PyErr (List (String × NumArr)) :=
  match get_connectivity_names d with
  | .error e => .error e
  | .ok ks => .ok (ks.foldl (fun m k => dinsert m k (get_var d (some k))) [])

/-- `ExodusReader.get_sideset_names`. -/
def get_sideset_names (d : Dataset) : Option (List String) :=
  get_names d (some "ss_names")

/-- Loop body of `get_sidesets`: store the node and element member arrays
of one requested side-set name under the keys `(name, node)` and
`(name, elem)`; an unresolved name gives a `None` key and hence an empty
array. -/
def ssStep (d : Dataset) (all_names : List String)
    (m : List ((String × String) × NumArr)) (nn : String) :
    List ((String × String) × NumArr) :=
  let node_key := get_key nn all_names "node_ns"
  let elem_key := get_key nn all_names "elem_ss"
  dinsert (dinsert m (nn, "node") (get_var d node_key)) (nn, "elem")
    (get_var d elem_key)

/-- `ExodusReader.get_sidesets`: `None` when no names were requested or
the file declares no side-set name table; otherwise a dict keyed by
`(name, node | elem)`. -/
def get_sidesets (d : Dataset) (names : Option (List String)) :
    Option (List ((String × String) × NumArr)) :=
  match names, get_sideset_names d with
  | none, _ => none
  | _, none => none
  | some ns, some all_names => some (ns.foldl (ssStep d all_names) [])

/-- `ExodusReader.get_all_sidesets`. -/
def get_all_sidesets (d : Dataset) :
    Option (List ((String × String) × NumArr)) :=
  get_sidesets d (get_sideset_names d)

/-- `ExodusReader.get_node_var_names`. -/
def get_node_var_names (d : Dataset) : Option (List String) :=
  get_names d (some "name_nod_var")

/-- Loop body of `get_node_vars`: `inds = np.where(all_names == nn)[0]`
followed by `inds[0]`, which raises `IndexError` when the requested name
has no match (also when the name table itself is absent). -/
def nodeStep (d : Dataset) (all_names : Option (List String))
    (m : List (String × NumArr)) (nn : String) :
    Except PyErr (List (String × NumArr)) :=
  match npFirstIdx all_names nn with
  | none => .error .indexError
  | some i =>
      .ok (dinsert m nn (get_var d (some ("vals_nod_var" ++ toString (i + 1)))))

/-- `ExodusReader.get_node_vars`: `None` when no names were requested;
otherwise a dict of the requested nodal variables, built by the loop
above with the name table read once before the loop. -/
def get_node_vars (d : Dataset) (names : Option (List String)) :
    Except PyErr (Option (List (String × NumArr))) :=
  match names with
  | none => .ok none
  | some ns =>
    match ns.foldlM (nodeStep d (get_node_var_names d)) [] with
    | .error e => .error e
    | .ok m => .ok (some m)

/-- `ExodusReader.get_all_node_vars`. -/
def get_all_node_vars (d : Dataset) :
    Except PyErr (Option (List (String × NumArr))) :=
  get_node_vars d (get_node_var_names d)

/-- `ExodusReader.get_elem_var_names`. -/
def get_elem_var_names (d : Dataset) : Option (List String) :=
  get_names d (some "name_elem_var")

/-- `ExodusReader.get_elem_var_names_and_blocks`: pairs every declared
elemental variable name with every block number `1..B`.  The guard in the
source compares the bound method `self.get_elem_var_names` (never `None`)
and the integer `self.get_num_elem_blocks()` (never `None`) against
`None`, so it never returns early; iterating over an absent name table
(`None`) raises `TypeError`. -/
def get_elem_var_names_and_blocks (d : Dataset) :
    Except PyErr (Option (List (String × Nat))) :=
  match get_num_elem_blocks d with
  | .error e => .error e
  | .ok nb =>
    let blocks := (List.range nb).map (· + 1)
    match get_elem_var_names d with
    | none => .error .typeError
    | some ns => .ok (some (ns.flatMap (fun nn => blocks.map (fun bb => (nn, bb)))))

/-- Loop body of `get_elem_vars`:
`key = self.get_key(nn[0], all_names, key_tag) + f_eb_suffix(nn[1])`.
When `get_key` returns `None`, adding the block suffix to `None` raises
`TypeError`. -/
def elemStep (d : Dataset) (all_names : List String)
    (m : List ((String × Nat) × NumArr)) (nn : String × Nat) :
    Except PyErr (List ((String × Nat) × NumArr)) :=
  match get_key nn.1 all_names "vals_elem_var" with
  | none => .error .typeError
  | some k => .ok (dinsert m nn (get_var d (some (k ++ "eb" ++ toString nn.2))))

/-- `ExodusReader.get_elem_vars`: `None` when the elemental name table is
absent or no pairs were requested; otherwise a dict keyed by the
requested `(name, block)` pairs. -/
def get_elem_vars (d : Dataset)
    (names_blocks : Option (List (String × Nat))) :
    Except PyErr (Option (List ((String × Nat) × NumArr))) :=
  match get_elem_var_names d, names_blocks with
  | none, _ => .ok none
  | some _, none => .ok none
  | some all_names, some nbs =>
    match nbs.foldlM (elemStep d all_names) [] with
    | .error e => .error e
    | .ok m => .ok (some m)

/-- `ExodusReader.get_all_elem_vars`. -/
def get_all_elem_vars (d : Dataset) :
    Except PyErr (Option (List ((String × Nat) × NumArr))) :=
  match get_elem_var_names_and_blocks d with
  | .error e => .error e
  | .ok nbs => get_elem_vars d nbs

/-- `ExodusReader.get_glob_var_names`. -/
def get_glob_var_names (d : Dataset) : Option (List String) :=
  get_names d (some "name_glo_var")

/-- Loop body of `get_glob_vars`: `inds[0]` raises `IndexError` for an
unmatched name; `self._data.variables[vals_glo_var]` raises `KeyError`
when the shared global table is absent; slicing column `inds[0]` raises
`IndexError` when the table is not 2-D or the column is out of range. -/
def globStep (d : Dataset) (all_names : List String)
    (m : List (String × NumArr)) (nn : String) :
    Except PyErr (List (String × NumArr)) :=
  match firstIdx nn all_names with
  | none => .error .indexError
  | some i =>
    match d.find "vals_glo_var" with
    | none => .error .keyError
    | some (.num2 mtx) =>
        if mtx.all (fun row => decide (i < row.length)) then
          .ok (dinsert m nn (NumArr.one (mtx.map (fun row => row.getD i 0))))
        else .error .indexError
    | some _ => .error .indexError

/-- `ExodusReader.get_glob_vars`: `None` when the global name table is
absent or no names were requested; otherwise a dict of columns of the
shared `vals_glo_var` table. -/
def get_glob_vars (d : Dataset) (names : Option (List String)) :
    Except PyErr (Option (List (String × NumArr))) :=
  match get_glob_var_names d, names with
  | none, _ => .ok none
  | some _, none => .ok none
  | some all_names, some ns =>
    match ns.foldlM (globStep d all_names) [] with
    | .error e => .error e
    | .ok m => .ok (some m)

/-- `ExodusReader.get_all_glob_vars`. -/
def get_all_glob_vars (d : Dataset) :
    Except PyErr (Option (List (String × NumArr))) :=
  get_glob_vars d (get_glob_var_names d)

/-- `ExodusReader._expand_coord`: replace an empty coordinate array by a
zero vector of the node count. -/
def expand_coord (coord : List Int) (dim : Nat) : List Int :=
  if coord.length = 0 then List.replicate dim 0 else coord

/-- `ExodusReader.get_coords`: read the three axis arrays, take the node
count as the maximum of their lengths, raise `RuntimeError` when it is
zero, zero-fill absent axes and return `np.vstack((x, y, z)).T`.
`np.vstack` raises `ValueError` when the (expanded) axes do not have
equal 1-D shapes. -/
def get_coords (d : Dataset) : Except PyErr (List (List Int)) :=
  let x := get_var d (some "coordx")
  let y := get_var d (some "coordy")
  let z := get_var d (some "coordz")
  let num_coords := max x.shape0 (max y.shape0 z.shape0)
  if num_coords = 0 then .error .runtimeError
  else
    match x, y, z with
    | .one xs, .one ys, .one zs =>
      let ex := expand_coord xs num_coords
      let ey := expand_coord ys num_coords
      let ez := expand_coord zs num_coords
      if ex.length = ey.length ∧ ey.length = ez.length then
        .ok (npVstackT ex ey ez)
      else .error .valueError
    | _, _, _ => .error .valueError

/-- `ExodusReader.get_time`: the stored `time_whole` array, or an empty
array when the key is absent.  No transpose is applied here. -/
def get_time (d : Dataset) : NumArr :=
  match d.find "time_whole" with
  | none => .one []
  | some (.num1 xs) => .one xs
  | some (.num2 m) => .two m
  | some (.strs ns) => .two (ns.map charCodes)

/-- The guard of `ExodusReader.__init__`:
`if not exodus_file.is_file() and exodus_file.suffix != ".e"` raise
`FileNotFoundError`.  The inputs are the two observations the guard makes
about the path. -/
def initFileCheck ( is_file : Bool) (ext : String) : Except PyErr Unit :=
  if !is_file && !(ext = ".e") then .error .fileNotFoundError else .ok ()

end ExodusReader

/-- Modelled from the spec: the canonical result record `SimData`, whose
source file `simdata.py` is not under `src/` (only its importer is).
Fields follow section 3 of the spec; each optional category defaults to
an absent (`none`) value until a decode call fills it. -/
structure SimData where
  time : NumArr
  coords : List (List Int)
  connect : Option (List (String × NumArr))
  side_sets : Option (List ((String × String) × NumArr))
  node_vars : Option (List (String × NumArr))
  elem_vars : Option (List ((String × Nat) × NumArr))
  glob_vars : Option (List (String × NumArr))
deriving Repr, DecidableEq

namespace ExodusReader

/-- `ExodusReader.read_all_sim_data`: fill every field of a `SimData`
from the file, auto-discovering the read configuration.  Assignments run
in source order, so an exception from an earlier getter propagates before
a later getter runs. -/
def read_all_sim_data (d : Dataset) : Except PyErr SimData :=
  match get_coords d with
  | .error e => .error e
  | .ok coords =>
    match get_connectivity d with
    | .error e => .error e
    | .ok connect =>
      match get_all_node_vars d with
      | .error e => .error e
      | .ok node_vars =>
        match get_all_elem_vars d with
        | .error e => .error e
        | .ok elem_vars =>
          match get_all_glob_vars d with
          | .error e => .error e
          | .ok glob_vars =>
            .ok { time := get_time d
                  coords := coords
                  connect := some connect
                  side_sets := get_all_sidesets d
                  node_vars := node_vars
                  elem_vars := elem_vars
                  glob_vars := glob_vars }

end ExodusReader

/-! Concrete datasets used as witnesses and counterexamples. -/

/-- A dataset with no variables at all. -/
def dsEmpty : Dataset := ⟨[], rfl⟩

/-- A small 2-D dataset with one nodal, one elemental and one global
variable, one element block, one side-set, and connectivity. -/
def dsOne : Dataset :=
  ⟨[("name_nod_var", .strs ["disp_x"]),
    ("name_glo_var", .strs ["react"]),
    ("name_elem_var", .strs ["strain_xx"]),
    ("eb_names", .strs ["block1"]),
    ("ss_names", .strs ["left"]),
    ("coordx", .num1 [1, 2]),
    ("coordy", .num1 [3, 4]),
    ("vals_nod_var1", .num2 [[5, 6]]),
    ("vals_glo_var", .num2 [[7]]),
    ("vals_elem_var1eb1", .num2 [[8]]),
    ("connect1", .num2 [[1, 2]])], rfl⟩

/-- A dataset with one declared element block but no connectivity key. -/
def dsNoConnect : Dataset :=
  ⟨[("eb_names", .strs ["block1"]),
    ("name_elem_var", .strs []),
    ("coordx", .num1 [0])], rfl⟩

/-- A dataset with a stored time vector. -/
def dsTime : Dataset := ⟨[("time_whole", .num1 [1, 2, 3])], rfl⟩

/-! Helper lemmas about the embedding: lookup, name resolution, dict
insertion, loop folds and the coordinate stacking. -/

/-- A successful lookup returns a pair of the variable list. -/
theorem findVal_mem : ∀ (vs : List (String × Val)) (k : String) (v : Val),
    findVal vs k = some v → (k, v) ∈ vs := by
  intro vs
  induction vs with
  | nil => intro k v h; simp [findVal] at h
  | cons p ps ih =>
    intro k v h
    simp only [findVal] at h
    split at h
    · next hpk =>
      injection h with h2
      subst h2
      exact List.mem_cons.mpr (Or.inl (by rw [← hpk]))
    · next hpk => exact List.mem_cons_of_mem _ (ih k v h)

/-- Every stored value obeys the typing discipline of `wellFormedVars`. -/
theorem wf_lookup (d : Dataset) (k : String) (v : Val) (h : d.find k = some v) :
    (if nameTableKeys.contains k then v.isStrs
     else if oneDimKeys.contains k then v.isNum1
     else !v.isStrs) = true := by
  have hm := findVal_mem d.vars k v h
  have hwf := d.wf
  unfold wellFormedVars at hwf
  rw [Bool.and_eq_true] at hwf
  simpa using List.all_eq_true.mp hwf.2 (k, v) hm

/-- A present coordinate or time key holds a 1-D numeric array. -/
theorem find_oneDim_num1 (d : Dataset) (k : String)
    (h1 : nameTableKeys.contains k = false) (h2 : oneDimKeys.contains k = true)
    (v : Val) (h : d.find k = some v) : ∃ xs, v = Val.num1 xs := by
  have hv := wf_lookup d k v h
  simp only [h1, h2, Bool.false_eq_true, if_false, if_true] at hv
  cases v with
  | num1 xs => exact ⟨xs, rfl⟩
  | strs ns => simp [Val.isNum1] at hv
  | num2 m => simp [Val.isNum1] at hv

/-- A name has no first index exactly when it does not occur. -/
theorem firstIdx_none_iff (nm : String) :
    ∀ l : List String, firstIdx nm l = none ↔ nm ∉ l := by
  intro l
  induction l with
  | nil => simp [firstIdx]
  | cons x xs ih =>
    simp only [firstIdx]
    split
    · next h => simp [h, List.mem_cons]
    · next h =>
      simp only [Option.map_eq_none', ih, List.mem_cons]
      constructor
      · intro hn hor
        rcases hor with h1 | h1
        · exact h h1.symm
        · exact hn h1
      · intro hn hx
        exact hn (Or.inr hx)

/-- A member name always has a first index. -/
theorem firstIdx_some_of_mem (nm : String) (l : List String) (h : nm ∈ l) :
    ∃ i, firstIdx nm l = some i := by
  rcases he : firstIdx nm l with _ | i
  · exact absurd h ((firstIdx_none_iff nm l).mp he)
  · exact ⟨i, rfl⟩

/-- The first index is in range, hits the name, and nothing before it
does. -/
theorem firstIdx_spec (nm : String) :
    ∀ (l : List String) (i : Nat), firstIdx nm l = some i →
      i < l.length ∧ l.getD i "" = nm ∧ ∀ j, j < i → l.getD j "" ≠ nm := by
  intro l
  induction l with
  | nil => intro i h; simp [firstIdx] at h
  | cons x xs ih =>
    intro i h
    simp only [firstIdx] at h
    split at h
    · next hx =>
      injection h with h2
      subst h2
      exact ⟨by simp, by simpa using hx, fun j hj => by omega⟩
    · next hx =>
      rcases Option.map_eq_some'.mp h with ⟨i0, hi0, rfl⟩
      obtain ⟨h1, h2, h3⟩ := ih i0 hi0
      refine ⟨by simpa using h1, by simpa using h2, ?_⟩
      intro j hj
      cases j with
      | zero => simpa using hx
      | succ j0 =>
        have := h3 j0 (by omega)
        simpa using this

/-- Key membership after a dict insert. -/
theorem mem_dkeys_dinsert {K V : Type} [DecidableEq K]
    (m : List (K × V)) (k k2 : K) (v : V) :
    k2 ∈ dkeys (dinsert m k v) ↔ k2 = k ∨ k2 ∈ dkeys m := by
  unfold dinsert dkeys
  split
  · next hany =>
    rw [List.map_map]
    simp only [List.mem_map, Function.comp]
    constructor
    · rintro ⟨p, hp, he⟩
      by_cases hpk : p.1 = k
      · simp only [hpk, if_true] at he
        exact Or.inl he.symm
      · simp only [hpk, if_false] at he
        exact Or.inr ⟨p, hp, he⟩
    · rintro (rfl | hk)
      · rcases List.any_eq_true.mp hany with ⟨p, hp, hpe⟩
        refine ⟨p, hp, ?_⟩
        simp only [of_decide_eq_true hpe, if_true]
      · rcases hk with ⟨p, hp, he⟩
        refine ⟨p, hp, ?_⟩
        by_cases hpk : p.1 = k
        · simp only [hpk, if_true]
          rw [← he, hpk]
        · simp only [hpk, if_false]
          exact he
  · next hany =>
    simp [List.mem_append, Or.comm]

/-- Every pair of a dict after an insert is the inserted pair or an old
pair. -/
theorem mem_dinsert {K V : Type} [DecidableEq K]
    (m : List (K × V)) (k : K) (v : V) (p : K × V)
    (hp : p ∈ dinsert m k v) : p = (k, v) ∨ p ∈ m := by
  unfold dinsert at hp
  split at hp
  · rcases List.mem_map.mp hp with ⟨q, hq, he⟩
    by_cases hqk : q.1 = k
    · simp only [hqk, if_true] at he
      exact Or.inl he.symm
    · simp only [hqk, if_false] at he
      exact Or.inr (he ▸ hq)
  · rcases List.mem_append.mp hp with h | h
    · exact Or.inr h
    · exact Or.inl (by simpa using h)

/-- Keys accumulated by a loop of dict inserts: a key is present exactly
when some processed element contributed it or it was already there. -/
theorem foldl_keys_iff {α K V : Type} (step : List (K × V) → α → List (K × V))
    (Ks : α → List K) :
    ∀ l : List α,
    (∀ m a k, a ∈ l → (k ∈ dkeys (step m a) ↔ k ∈ Ks a ∨ k ∈ dkeys m)) →
    ∀ m k, k ∈ dkeys (l.foldl step m) ↔ (∃ a, a ∈ l ∧ k ∈ Ks a) ∨ k ∈ dkeys m := by
  intro l
  induction l with
  | nil => intro _ m k; simp
  | cons x xs ih =>
    intro hstep m k
    rw [List.foldl_cons]
    rw [ih (fun m2 a k2 ha => hstep m2 a k2 (List.mem_cons_of_mem _ ha)) (step m x) k]
    rw [hstep m x k (List.mem_cons_self _ _)]
    constructor
    · rintro (⟨a, ha, hk⟩ | (hk | hk))
      · exact Or.inl ⟨a, List.mem_cons_of_mem _ ha, hk⟩
      · exact Or.inl ⟨x, List.mem_cons_self _ _, hk⟩
      · exact Or.inr hk
    · rintro (⟨a, ha, hk⟩ | hk)
      · rcases List.mem_cons.mp ha with rfl | ha2
        · exact Or.inr (Or.inl hk)
        · exact Or.inl ⟨a, ha2, hk⟩
      · exact Or.inr (Or.inr hk)

/-- An invariant of dict pairs preserved by every loop step holds of the
loop result. -/
theorem foldl_values {α K V : Type} (step : List (K × V) → α → List (K × V))
    (P : K × V → Prop) :
    ∀ l : List α,
    (∀ m a, a ∈ l → (∀ p ∈ m, P p) → ∀ p ∈ step m a, P p) →
    ∀ m, (∀ p ∈ m, P p) → ∀ p ∈ l.foldl step m, P p := by
  intro l
  induction l with
  | nil => intro _ m hm; simpa using hm
  | cons x xs ih =>
    intro hstep m hm
    rw [List.foldl_cons]
    exact ih (fun m2 a ha => hstep m2 a (List.mem_cons_of_mem _ ha))
      (step m x) (hstep m x (List.mem_cons_self _ _) hm)

/-- A monadic loop whose body succeeds on every processed element equals
the corresponding pure loop. -/
theorem foldlM_ok_eq {α β : Type} (f : β → α → Except PyErr β) (g : β → α → β) :
    ∀ l : List α, (∀ b a, a ∈ l → f b a = .ok (g b a)) →
    ∀ b, l.foldlM f b = .ok (l.foldl g b) := by
  intro l
  induction l with
  | nil => intro _ b; rfl
  | cons x xs ih =>
    intro h b
    have hx := h b x (List.mem_cons_self _ _)
    have hstep : List.foldlM f b (x :: xs) = List.foldlM f (g b x) xs := by
      show (f b x >>= fun s => List.foldlM f s xs) = _
      rw [hx]
      rfl
    rw [hstep, ih (fun b2 a ha => h b2 a (List.mem_cons_of_mem _ ha)), List.foldl_cons]

/-- A monadic loop raises if its body raises on some processed element
regardless of the accumulator. -/
theorem foldlM_err_mem {α β : Type} (f : β → α → Except PyErr β) (a : α) :
    ∀ l : List α, a ∈ l → (∀ b, ∃ e, f b a = .error e) →
    ∀ b, ∃ e, l.foldlM f b = .error e := by
  intro l
  induction l with
  | nil => intro h; simp at h
  | cons x xs ih =>
    intro ha hf b
    cases hx : f b x with
    | error e =>
      refine ⟨e, ?_⟩
      show (f b x >>= fun s => List.foldlM f s xs) = _
      rw [hx]
      rfl
    | ok b2 =>
      rcases List.mem_cons.mp ha with rfl | ha2
      · rcases hf b with ⟨e, he⟩
        rw [hx] at he
        cases he
      · rcases ih ha2 hf b2 with ⟨e, he⟩
        refine ⟨e, ?_⟩
        show (f b x >>= fun s => List.foldlM f s xs) = _
        rw [hx]
        exact he

/-- A monadic loop raises a fixed exception if its body always raises it
on some processed element and can raise nothing else on the list. -/
theorem foldlM_err_eq {α β : Type} (f : β → α → Except PyErr β) (a : α) (e : PyErr) :
    ∀ l : List α, a ∈ l → (∀ b, f b a = .error e) →
    (∀ b x e2, x ∈ l → f b x = .error e2 → e2 = e) →
    ∀ b, l.foldlM f b = .error e := by
  intro l
  induction l with
  | nil => intro h; simp at h
  | cons x xs ih =>
    intro ha hfa honly b
    cases hx : f b x with
    | error e2 =>
      have : e2 = e := honly b x e2 (List.mem_cons_self _ _) hx
      subst this
      show (f b x >>= fun s => List.foldlM f s xs) = _
      rw [hx]
      rfl
    | ok b2 =>
      rcases List.mem_cons.mp ha with rfl | ha2
      · have := hfa b
        rw [hx] at this
        cases this
      · have hr := ih ha2 hfa
          (fun b3 x2 e2 hx2 => honly b3 x2 e2 (List.mem_cons_of_mem _ hx2)) b2
        show (f b x >>= fun s => List.foldlM f s xs) = _
        rw [hx]
        exact hr

/-- A monadic loop whose body inserts one pair per processed element
succeeds and yields a dict whose keys are the processed elements and
whose values are given by the value function. -/
theorem foldlM_dinsert_ok {α V : Type} [DecidableEq α]
    (f : List (α × V) → α → Except PyErr (List (α × V)))
    (val : α → V) (l : List α)
    (hok : ∀ m a, a ∈ l → f m a = .ok (dinsert m a (val a))) :
    ∃ m, l.foldlM f [] = .ok m ∧
      (∀ k, k ∈ dkeys m ↔ k ∈ l) ∧
      (∀ p ∈ m, p.2 = val p.1) := by
  have hfold := foldlM_ok_eq f (fun m a => dinsert m a (val a)) l hok []
  refine ⟨_, hfold, ?_, ?_⟩
  · intro k
    have h := foldl_keys_iff (fun m a => dinsert m a (val a)) (fun a => [a]) l
      (fun m a k2 _ => by rw [mem_dkeys_dinsert]; simp) [] k
    simp only [dkeys, List.map_nil, List.not_mem_nil, or_false,
      List.mem_singleton] at h
    unfold dkeys
    rw [h]
    constructor
    · rintro ⟨a, ha, rfl⟩
      exact ha
    · intro hk
      exact ⟨k, hk, rfl⟩
  · have h := foldl_values (fun m a => dinsert m a (val a))
      (fun p => p.2 = val p.1) l ?_ [] (by simp)
    · exact h
    · intro m a _ hm p hp
      rcases mem_dinsert _ _ _ _ hp with rfl | hpm
      · rfl
      · exact hm p hpm

/-- A pure loop of one dict insert per element yields a dict whose keys
are the processed elements and whose values are given by the value
function. -/
theorem foldl_dinsert_spec {α V : Type} [DecidableEq α] (val : α → V) (l : List α) :
    (∀ k, k ∈ dkeys (l.foldl (fun m a => dinsert m a (val a)) []) ↔ k ∈ l) ∧
    (∀ p ∈ l.foldl (fun m a => dinsert m a (val a)) [], p.2 = val p.1) := by
  constructor
  · intro k
    have h := foldl_keys_iff (fun m a => dinsert m a (val a)) (fun a => [a]) l
      (fun m a k2 _ => by rw [mem_dkeys_dinsert]; simp) [] k
    simp only [dkeys, List.map_nil, List.not_mem_nil, or_false,
      List.mem_singleton] at h
    unfold dkeys
    rw [h]
    constructor
    · rintro ⟨a, ha, rfl⟩
      exact ha
    · intro hk
      exact ⟨k, hk, rfl⟩
  · have h := foldl_values (fun m a => dinsert m a (val a))
      (fun p => p.2 = val p.1) l ?_ [] (by simp)
    · exact h
    · intro m a _ hm p hp
      rcases mem_dinsert _ _ _ _ hp with rfl | hpm
      · rfl
      · exact hm p hpm

/-- Length of the stacked coordinate table for equal-length axes. -/
theorem npVstackT_length : ∀ xs ys zs : List Int,
    xs.length = ys.length → ys.length = zs.length →
    (npVstackT xs ys zs).length = xs.length := by
  intro xs
  induction xs with
  | nil =>
    intro ys zs h1 h2
    cases ys with
    | nil =>
      cases zs with
      | nil => rfl
      | cons c cs => simp at h2
    | cons b bs => simp at h1
  | cons a as ih =>
    intro ys zs h1 h2
    cases ys with
    | nil => simp at h1
    | cons b bs =>
      cases zs with
      | nil => simp at h2
      | cons c cs =>
        simp only [npVstackT, List.length_cons]
        rw [ih bs cs (by simpa using h1) (by simpa using h2)]

/-- Every row of the stacked coordinate table is a triple drawn from the
three axes. -/
theorem npVstackT_mem : ∀ (xs ys zs : List Int) (r : List Int),
    r ∈ npVstackT xs ys zs →
    ∃ a b c, a ∈ xs ∧ b ∈ ys ∧ c ∈ zs ∧ r = [a, b, c] := by
  intro xs
  induction xs with
  | nil =>
    intro ys zs r h
    cases ys <;> cases zs <;> simp [npVstackT] at h
  | cons a as ih =>
    intro ys zs r h
    cases ys with
    | nil => simp [npVstackT] at h
    | cons b bs =>
      cases zs with
      | nil => simp [npVstackT] at h
      | cons c cs =>
        simp only [npVstackT, List.mem_cons] at h
        rcases h with rfl | h
        · exact ⟨a, b, c, by simp, by simp, by simp, rfl⟩
        · obtain ⟨a2, b2, c2, h1, h2, h3, h4⟩ := ih bs cs r h
          exact ⟨a2, b2, c2, List.mem_cons_of_mem _ h1,
            List.mem_cons_of_mem _ h2, List.mem_cons_of_mem _ h3, h4⟩

/-! Claim theorems. -/

/-- C4: the constructor guard evaluated at the failing input.  For a path
that is not an existing file but carries the expected extension `.e`, the
guard `not is_file and ext != ".e"` is false, so no `FileNotFoundError`
is raised, although the docstring of `__init__` and the claim require
one for a nonexistent file. -/
theorem init_guard_misses_nonexistent_dot_e :
    ExodusReader.initFileCheck false ".e" = .ok () := rfl

/-- C6: `get_key` returns the key tag followed by the 1-based position of
the first occurrence of the target name when the name occurs in the
declared list, and `none` when it does not; it never raises. -/
theorem get_key_first_occurrence (all_names : List String) (name tag : String) :
    (name ∈ all_names → ∃ i, i < all_names.length ∧ all_names.getD i "" = name ∧
      (∀ j, j < i → all_names.getD j "" ≠ name) ∧
      ExodusReader.get_key name all_names tag = some (tag ++ toString (i + 1))) ∧
    (name ∉ all_names → ExodusReader.get_key name all_names tag = none) := by
  constructor
  · intro hmem
    obtain ⟨i, hi⟩ := firstIdx_some_of_mem name all_names hmem
    obtain ⟨h1, h2, h3⟩ := firstIdx_spec name all_names i hi
    exact ⟨i, h1, h2, h3, by simp [ExodusReader.get_key, hi]⟩
  · intro hmem
    simp [ExodusReader.get_key, (firstIdx_none_iff name all_names).mpr hmem]

/-- C6 witness: the theorem instantiated on a concrete name list, for a
present and an absent name. -/
theorem get_key_first_occurrence_witness :
    ExodusReader.get_key "disp_y" ["disp_x", "disp_y"] "vals_nod_var" =
      some "vals_nod_var2" ∧
    ExodusReader.get_key "ghost" ["disp_x", "disp_y"] "vals_nod_var" = none := by
  constructor
  · obtain ⟨i, h1, h2, h3, h4⟩ :=
      (get_key_first_occurrence ["disp_x", "disp_y"] "disp_y" "vals_nod_var").1
        (by simp)
    have h01 : i = 0 ∨ i = 1 := by
      simp only [List.length_cons, List.length_nil] at h1
      omega
    rcases h01 with rfl | rfl
    · exact absurd h2 (by decide)
    · rw [h4]
      rfl
  · exact (get_key_first_occurrence ["disp_x", "disp_y"] "ghost" "vals_nod_var").2
      (by decide)

/-- C10: `get_time` returns the stored `time_whole` sequence exactly when
present, and an empty sequence, without raising, when absent. -/
theorem get_time_total (d : Dataset) :
    (d.find "time_whole" = none → ExodusReader.get_time d = NumArr.one []) ∧
    (∀ xs, d.find "time_whole" = some (Val.num1 xs) →
      ExodusReader.get_time d = NumArr.one xs) := by
  constructor
  · intro h
    simp [ExodusReader.get_time, h]
  · intro xs h
    simp [ExodusReader.get_time, h]

/-- C10 witness: the theorem instantiated on a dataset without and a
dataset with a stored time vector. -/
theorem get_time_total_witness :
    (dsEmpty.find "time_whole" = none ∧
      ExodusReader.get_time dsEmpty = NumArr.one []) ∧
    (dsTime.find "time_whole" = some (Val.num1 [1, 2, 3]) ∧
      ExodusReader.get_time dsTime = NumArr.one [1, 2, 3]) :=
  ⟨⟨rfl, (get_time_total dsEmpty).1 rfl⟩,
   ⟨rfl, (get_time_total dsTime).2 [1, 2, 3] rfl⟩⟩

/-- C1 counterexample: requesting a name absent from the declared tables
makes `get_node_vars` and `get_glob_vars` raise `IndexError` instead of
returning a mapping with a missing-marker entry. -/
theorem absent_name_counterexample :
    ExodusReader.get_node_vars dsOne (some ["ghost"]) = .error .indexError ∧
    ExodusReader.get_glob_vars dsOne (some ["ghost"]) = .error .indexError :=
  ⟨rfl, rfl⟩

/-- C1 (amended): for a requested variable name with no match in the
declared nodal name table (including an absent table), `get_node_vars`
raises `IndexError`; and when the global name table is present but lacks
the name, `get_glob_vars` raises.  No mapping with a missing-marker is
returned. -/
theorem absent_name_raises (d : Dataset) (ns : List String) (nn : String)
    (hmem : nn ∈ ns)
    (hnode : npFirstIdx (ExodusReader.get_node_var_names d) nn = none)
    (hglob : ∀ gns, ExodusReader.get_glob_var_names d = some gns → nn ∉ gns) :
    ExodusReader.get_node_vars d (some ns) = .error .indexError ∧
    (∀ gns, ExodusReader.get_glob_var_names d = some gns →
      ∃ e, ExodusReader.get_glob_vars d (some ns) = .error e) := by
  constructor
  · have hstep : ∀ b, ExodusReader.nodeStep d (ExodusReader.get_node_var_names d)
        b nn = .error .indexError := by
      intro b
      simp [ExodusReader.nodeStep, hnode]
    have honly : ∀ b x e2, x ∈ ns →
        ExodusReader.nodeStep d (ExodusReader.get_node_var_names d) b x =
          .error e2 → e2 = .indexError := by
      intro b x e2 _ hx
      unfold ExodusReader.nodeStep at hx
      split at hx
      · injection hx with h
        exact h.symm
      · cases hx
    have herr := foldlM_err_eq _ nn .indexError ns hmem hstep honly []
    simp [ExodusReader.get_node_vars, herr]
  · intro gns hgns
    have hmemg : nn ∉ gns := hglob gns hgns
    have hstep : ∀ b, ∃ e, ExodusReader.globStep d gns b nn = .error e := by
      intro b
      exact ⟨.indexError,
        by simp [ExodusReader.globStep, (firstIdx_none_iff nn gns).mpr hmemg]⟩
    obtain ⟨e, he⟩ := foldlM_err_mem _ nn ns hmem hstep []
    exact ⟨e, by simp [ExodusReader.get_glob_vars, hgns, he]⟩

/-- C1 witness: the amended theorem instantiated on a concrete dataset
and an unknown requested name. -/
theorem absent_name_raises_witness :
    ("ghost" ∈ ["ghost"]) ∧
    (ExodusReader.get_node_vars dsOne (some ["ghost"]) = .error .indexError ∧
     (∀ gns, ExodusReader.get_glob_var_names dsOne = some gns →
       ∃ e, ExodusReader.get_glob_vars dsOne (some ["ghost"]) = .error e)) := by
  refine ⟨by simp, absent_name_raises dsOne ["ghost"] "ghost" (by simp) rfl ?_⟩
  intro gns hg
  have hr : ExodusReader.get_glob_var_names dsOne = some ["react"] := rfl
  rw [hr] at hg
  injection hg with h
  subst h
  decide

/-- C9: requesting a side-set name absent from the declared side-set name
table yields, without raising, a dict holding both the node and the
element key for that name, each bound to an empty array. -/
theorem get_sidesets_absent_name (d : Dataset) (all_names ns : List String)
    (nn : String)
    (hall : ExodusReader.get_sideset_names d = some all_names)
    (hmem : nn ∈ ns) (habs : nn ∉ all_names) :
    ∃ m, ExodusReader.get_sidesets d (some ns) = some m ∧
      (nn, "node") ∈ dkeys m ∧ (nn, "elem") ∈ dkeys m ∧
      (∀ v, ((nn, "node"), v) ∈ m → v = NumArr.one []) ∧
      (∀ v, ((nn, "elem"), v) ∈ m → v = NumArr.one []) := by
  have hkey : ∀ tag, ExodusReader.get_key nn all_names tag = none := by
    intro tag
    simp [ExodusReader.get_key, (firstIdx_none_iff nn all_names).mpr habs]
  have hstep : ∀ m a k, a ∈ ns →
      (k ∈ dkeys (ExodusReader.ssStep d all_names m a) ↔
        k ∈ [(a, "node"), (a, "elem")] ∨ k ∈ dkeys m) := by
    intro m a k _
    simp only [ExodusReader.ssStep]
    rw [mem_dkeys_dinsert, mem_dkeys_dinsert]
    simp only [List.mem_cons, List.mem_singleton, List.not_mem_nil, or_false]
    tauto
  have hkeys := foldl_keys_iff (ExodusReader.ssStep d all_names)
    (fun a => [(a, "node"), (a, "elem")]) ns hstep []
  have hvstep : ∀ m a, a ∈ ns →
      (∀ p ∈ m, p.1.1 = nn → p.2 = NumArr.one []) →
      ∀ p ∈ ExodusReader.ssStep d all_names m a,
        p.1.1 = nn → p.2 = NumArr.one [] := by
    intro m a _ hm p hp h1
    simp only [ExodusReader.ssStep] at hp
    rcases mem_dinsert _ _ _ _ hp with rfl | hp2
    · have ha : a = nn := h1
      subst ha
      simp [ExodusReader.get_var, hkey]
    · rcases mem_dinsert _ _ _ _ hp2 with rfl | hp3
      · have ha : a = nn := h1
        subst ha
        simp [ExodusReader.get_var, hkey]
      · exact hm p hp3 h1
  have hvals := foldl_values (ExodusReader.ssStep d all_names)
    (fun p => p.1.1 = nn → p.2 = NumArr.one []) ns hvstep [] (by simp)
  refine ⟨ns.foldl (ExodusReader.ssStep d all_names) [], ?_, ?_, ?_, ?_, ?_⟩
  · simp [ExodusReader.get_sidesets, hall]
  · exact (hkeys (nn, "node")).mpr (Or.inl ⟨nn, hmem, by simp⟩)
  · exact (hkeys (nn, "elem")).mpr (Or.inl ⟨nn, hmem, by simp⟩)
  · intro v hv
    exact hvals ((nn, "node"), v) hv rfl
  · intro v hv
    exact hvals ((nn, "elem"), v) hv rfl

/-- C9 witness: the theorem instantiated on a dataset declaring one
side-set, requesting a different name. -/
theorem get_sidesets_absent_name_witness :
    ("ghost" ∈ ["ghost"]) ∧ ("ghost" ∉ ["left"]) ∧
    (∃ m, ExodusReader.get_sidesets dsOne (some ["ghost"]) = some m ∧
      ("ghost", "node") ∈ dkeys m ∧ ("ghost", "elem") ∈ dkeys m ∧
      (∀ v, (("ghost", "node"), v) ∈ m → v = NumArr.one []) ∧
      (∀ v, (("ghost", "elem"), v) ∈ m → v = NumArr.one [])) :=
  ⟨by simp, by decide,
    get_sidesets_absent_name dsOne ["left"] ["ghost"] "ghost" rfl (by simp)
      (by decide)⟩

/-- C8: a requested (name, block) pair whose name is declared in the
elemental name table but whose combined storage key is absent from the
file yields a present dict entry bound to an empty array, and no error,
provided every requested name is declared. -/
theorem get_elem_vars_empty_block (d : Dataset) (ens : List String)
    (nbs : List (String × Nat)) (nm : String) (b : Nat)
    (hens : ExodusReader.get_elem_var_names d = some ens)
    (hall : ∀ p ∈ nbs, p.1 ∈ ens)
    (hmem : (nm, b) ∈ nbs)
    (habs : ∀ i, firstIdx nm ens = some i →
      d.find ("vals_elem_var" ++ toString (i + 1) ++ "eb" ++ toString b) = none) :
    ∃ m, ExodusReader.get_elem_vars d (some nbs) = .ok (some m) ∧
      (nm, b) ∈ dkeys m ∧ ∀ v, ((nm, b), v) ∈ m → v = NumArr.one [] := by
  have hok : ∀ m p, p ∈ nbs → ExodusReader.elemStep d ens m p =
      .ok (dinsert m p (ExodusReader.get_var d (some
        (((ExodusReader.get_key p.1 ens "vals_elem_var").getD "") ++ "eb" ++
          toString p.2)))) := by
    intro m p hp
    obtain ⟨i, hi⟩ := firstIdx_some_of_mem p.1 ens (hall p hp)
    have hk : ExodusReader.get_key p.1 ens "vals_elem_var" =
        some ("vals_elem_var" ++ toString (i + 1)) := by
      simp [ExodusReader.get_key, hi]
    simp [ExodusReader.elemStep, hk]
  obtain ⟨m, hm, hkeys, hvals⟩ := foldlM_dinsert_ok (ExodusReader.elemStep d ens)
    (fun p => ExodusReader.get_var d (some
      (((ExodusReader.get_key p.1 ens "vals_elem_var").getD "") ++ "eb" ++
        toString p.2))) nbs hok
  refine ⟨m, ?_, (hkeys (nm, b)).mpr hmem, ?_⟩
  · simp [ExodusReader.get_elem_vars, hens, hm]
  · intro v hv
    obtain ⟨i, hi⟩ := firstIdx_some_of_mem nm ens (hall (nm, b) hmem)
    have hk : ExodusReader.get_key nm ens "vals_elem_var" =
        some ("vals_elem_var" ++ toString (i + 1)) := by
      simp [ExodusReader.get_key, hi]
    have hval : v = ExodusReader.get_var d (some
        (((ExodusReader.get_key nm ens "vals_elem_var").getD "") ++ "eb" ++
          toString b)) := hvals ((nm, b), v) hv
    rw [hval]
    simp only [hk, Option.getD_some]
    simp [ExodusReader.get_var, habs i hi]

/-- C8 witness: the theorem instantiated on a dataset where the declared
elemental variable is stored only for block 1 and block 0 is requested,
matching the concrete scenario of the spec. -/
theorem get_elem_vars_empty_block_witness :
    (("strain_xx", 0) ∈ [("strain_xx", 0)]) ∧
    dsOne.find "vals_elem_var1eb0" = none ∧
    (∃ m, ExodusReader.get_elem_vars dsOne (some [("strain_xx", 0)]) =
        .ok (some m) ∧
      ("strain_xx", 0) ∈ dkeys m ∧
      ∀ v, (("strain_xx", 0), v) ∈ m → v = NumArr.one []) := by
  refine ⟨by simp, rfl, get_elem_vars_empty_block dsOne ["strain_xx"]
    [("strain_xx", 0)] "strain_xx" 0 rfl ?_ (by simp) ?_⟩
  · intro p hp
    rw [List.mem_singleton] at hp
    subst hp
    simp
  · intro i hi
    have h0 : firstIdx "strain_xx" ["strain_xx"] = some 0 := rfl
    rw [h0] at hi
    injection hi with h
    subst h
    rfl

/-- C5 counterexample: on a file with one declared element block and no
connectivity key, the decoded record holds a present-but-empty
connectivity dict, not an absent one. -/
theorem connect_absent_counterexample :
    dsNoConnect.find "connect1" = none ∧
    (ExodusReader.read_all_sim_data dsNoConnect).toOption.map SimData.connect =
      some (some []) :=
  ⟨rfl, rfl⟩

/-- C5 (amended): `get_connectivity_names` probes exactly the keys
`connect1` .. `connectB` for the declared block count `B` and keeps those
present; `get_connectivity` maps each kept key to its stored table; and
when no probed key is present the returned dict is empty (present but
empty, not absent), with no error raised. -/
theorem connectivity_probes_blocks (d : Dataset) (ebs : List String)
    (hebs : ExodusReader.get_names d (some "eb_names") = some ebs) :
    ∃ ks, ExodusReader.get_connectivity_names d = .ok ks ∧
      (∀ k, k ∈ ks ↔ ∃ bb, bb < ebs.length ∧
        k = "connect" ++ toString (bb + 1) ∧ (d.find k).isSome = true) ∧
      ∃ m, ExodusReader.get_connectivity d = .ok m ∧
        (∀ k, k ∈ dkeys m ↔ k ∈ ks) ∧
        (∀ p ∈ m, p.2 = ExodusReader.get_var d (some p.1)) ∧
        ((∀ bb, bb < ebs.length →
            d.find ("connect" ++ toString (bb + 1)) = none) → m = []) := by
  have hnb : ExodusReader.get_num_elem_blocks d = .ok ebs.length := by
    simp [ExodusReader.get_num_elem_blocks, hebs]
  have hks : ExodusReader.get_connectivity_names d = .ok
      (((List.range ebs.length).map
          (fun bb => "connect" ++ toString (bb + 1))).filter
        (fun k => (d.find k).isSome)) := by
    simp [ExodusReader.get_connectivity_names, hnb]
  refine ⟨_, hks, ?_, ?_⟩
  · intro k
    rw [List.mem_filter]
    constructor
    · rintro ⟨hmap, hsome⟩
      rcases List.mem_map.mp hmap with ⟨bb, hbb, rfl⟩
      exact ⟨bb, List.mem_range.mp hbb, rfl, hsome⟩
    · rintro ⟨bb, hbb, rfl, hsome⟩
      exact ⟨List.mem_map.mpr ⟨bb, List.mem_range.mpr hbb, rfl⟩, hsome⟩
  · have hm : ExodusReader.get_connectivity d = .ok
        ((((List.range ebs.length).map
            (fun bb => "connect" ++ toString (bb + 1))).filter
          (fun k => (d.find k).isSome)).foldl
          (fun m k => dinsert m k (ExodusReader.get_var d (some k))) []) := by
      simp [ExodusReader.get_connectivity, hks]
    have hspec := foldl_dinsert_spec
      (fun k => ExodusReader.get_var d (some k))
      (((List.range ebs.length).map
          (fun bb => "connect" ++ toString (bb + 1))).filter
        (fun k => (d.find k).isSome))
    refine ⟨_, hm, hspec.1, hspec.2, ?_⟩
    · intro hnone
      have hksnil : (((List.range ebs.length).map
          (fun bb => "connect" ++ toString (bb + 1))).filter
            (fun k => (d.find k).isSome)) = [] := by
        apply List.eq_nil_iff_forall_not_mem.mpr
        intro k hk
        rw [List.mem_filter] at hk
        rcases List.mem_map.mp hk.1 with ⟨bb, hbb, rfl⟩
        have h2 := hk.2
        rw [hnone bb (List.mem_range.mp hbb)] at h2
        simp at h2
      rw [hksnil]
      rfl

/-- C5 witness: the amended theorem instantiated on a dataset with one
block whose connectivity key is present. -/
theorem connectivity_probes_blocks_witness :
    ExodusReader.get_names dsOne (some "eb_names") = some ["block1"] ∧
    (∃ ks, ExodusReader.get_connectivity_names dsOne = .ok ks ∧
      (∀ k, k ∈ ks ↔ ∃ bb, bb < (["block1"] : List String).length ∧
        k = "connect" ++ toString (bb + 1) ∧ (dsOne.find k).isSome = true) ∧
      ∃ m, ExodusReader.get_connectivity dsOne = .ok m ∧
        (∀ k, k ∈ dkeys m ↔ k ∈ ks) ∧
        (∀ p ∈ m, p.2 = ExodusReader.get_var dsOne (some p.1)) ∧
        ((∀ bb, bb < (["block1"] : List String).length →
            dsOne.find ("connect" ++ toString (bb + 1)) = none) → m = [])) :=
  ⟨rfl, connectivity_probes_blocks dsOne ["block1"] rfl⟩

/-- `get_coords` raises the no-spatial-dimension error exactly when all
three axis arrays read as empty. -/
theorem get_coords_runtime_iff (d : Dataset) :
    ExodusReader.get_coords d = .error .runtimeError ↔
      ((ExodusReader.get_var d (some "coordx")).shape0 = 0 ∧
       (ExodusReader.get_var d (some "coordy")).shape0 = 0 ∧
       (ExodusReader.get_var d (some "coordz")).shape0 = 0) := by
  rcases hx : ExodusReader.get_var d (some "coordx") with xs | mx <;>
    rcases hy : ExodusReader.get_var d (some "coordy") with ys | my <;>
      rcases hz : ExodusReader.get_var d (some "coordz") with zs | mz <;>
        simp only [ExodusReader.get_coords, hx, hy, hz, NumArr.shape0] <;>
        split_ifs with h1 h2 <;>
        simp_all [Nat.max_eq_zero_iff]

/-- An axis array reads as empty exactly when its key is absent, for
datasets whose present axes are nonempty. -/
theorem axis_shape_zero_iff (d : Dataset) (k : String)
    (h1 : nameTableKeys.contains k = false) (h2 : oneDimKeys.contains k = true)
    (hne : ∀ xs, d.find k = some (Val.num1 xs) → xs ≠ []) :
    ((ExodusReader.get_var d (some k)).shape0 = 0 ↔ d.find k = none) := by
  constructor
  · intro h0
    rcases hf : d.find k with _ | v
    · rfl
    · obtain ⟨xs, rfl⟩ := find_oneDim_num1 d k h1 h2 v hf
      have hv : ExodusReader.get_var d (some k) = .one xs := by
        simp [ExodusReader.get_var, hf]
      rw [hv] at h0
      simp only [NumArr.shape0] at h0
      exact absurd (List.length_eq_zero.mp h0) (hne xs hf)
  · intro hf
    simp [ExodusReader.get_var, hf, NumArr.shape0]

/-- C7: `get_coords` fails with the no-spatial-dimension condition if and
only if all three coordinate axes are absent from the file, for files
whose present axes carry at least one node. -/
theorem coords_dimension_error_iff (d : Dataset)
    (hne : ∀ k, k ∈ (["coordx", "coordy", "coordz"] : List String) →
      ∀ xs, d.find k = some (Val.num1 xs) → xs ≠ []) :
    (ExodusReader.get_coords d = .error .runtimeError ↔
      (d.find "coordx" = none ∧ d.find "coordy" = none ∧
       d.find "coordz" = none)) := by
  rw [get_coords_runtime_iff]
  rw [axis_shape_zero_iff d "coordx" (by decide) (by decide) (hne "coordx" (by simp)),
    axis_shape_zero_iff d "coordy" (by decide) (by decide) (hne "coordy" (by simp)),
    axis_shape_zero_iff d "coordz" (by decide) (by decide) (hne "coordz" (by simp))]

/-- C7 witness: the theorem instantiated on the empty dataset, where the
error is raised and all three axes are indeed absent. -/
theorem coords_dimension_error_iff_witness :
    (∀ k, k ∈ (["coordx", "coordy", "coordz"] : List String) →
      ∀ xs, dsEmpty.find k = some (Val.num1 xs) → xs ≠ []) ∧
    (ExodusReader.get_coords dsEmpty = .error .runtimeError ↔
      (dsEmpty.find "coordx" = none ∧ dsEmpty.find "coordy" = none ∧
       dsEmpty.find "coordz" = none)) := by
  have hne : ∀ k, k ∈ (["coordx", "coordy", "coordz"] : List String) →
      ∀ xs, dsEmpty.find k = some (Val.num1 xs) → xs ≠ [] := by
    intro k _ xs h
    simp [dsEmpty, Dataset.find, findVal] at h
  exact ⟨hne, coords_dimension_error_iff dsEmpty hne⟩

/-- Reading one axis: the array is empty for an absent key and has the
common node count for a present key. -/
theorem axis_case (d : Dataset) (k : String) (N : Nat)
    (h : d.find k = none ∨ ∃ v, d.find k = some (Val.num1 v) ∧ v.length = N) :
    ∃ u, ExodusReader.get_var d (some k) = .one u ∧
      ((d.find k = none ∧ u = []) ∨ (d.find k ≠ none ∧ u.length = N)) := by
  rcases h with h | ⟨v, hv, hl⟩
  · exact ⟨[], by simp [ExodusReader.get_var, h], Or.inl ⟨h, rfl⟩⟩
  · exact ⟨v, by simp [ExodusReader.get_var, hv], Or.inr ⟨by simp [hv], hl⟩⟩

/-- C3: on a file with at least one axis present and all present axes of
the common positive length N, `get_coords` returns an N-by-3 table whose
columns for absent axes are entirely zero. -/
theorem coords_table_shape (d : Dataset) (N : Nat) (hN : 0 < N)
    (hx : d.find "coordx" = none ∨
      ∃ v, d.find "coordx" = some (Val.num1 v) ∧ v.length = N)
    (hy : d.find "coordy" = none ∨
      ∃ v, d.find "coordy" = some (Val.num1 v) ∧ v.length = N)
    (hz : d.find "coordz" = none ∨
      ∃ v, d.find "coordz" = some (Val.num1 v) ∧ v.length = N)
    (hsome : d.find "coordx" ≠ none ∨ d.find "coordy" ≠ none ∨
      d.find "coordz" ≠ none) :
    ∃ c, ExodusReader.get_coords d = .ok c ∧ c.length = N ∧
      (∀ r ∈ c, r.length = 3) ∧
      (d.find "coordx" = none → ∀ r ∈ c, r.getD 0 0 = 0) ∧
      (d.find "coordy" = none → ∀ r ∈ c, r.getD 1 0 = 0) ∧
      (d.find "coordz" = none → ∀ r ∈ c, r.getD 2 0 = 0) := by
  obtain ⟨xs, hxv, hxc⟩ := axis_case d "coordx" N hx
  obtain ⟨ys, hyv, hyc⟩ := axis_case d "coordy" N hy
  obtain ⟨zs, hzv, hzc⟩ := axis_case d "coordz" N hz
  have hx01 : xs.length = 0 ∨ xs.length = N := by
    rcases hxc with ⟨_, rfl⟩ | ⟨_, hl⟩
    · exact Or.inl rfl
    · exact Or.inr hl
  have hy01 : ys.length = 0 ∨ ys.length = N := by
    rcases hyc with ⟨_, rfl⟩ | ⟨_, hl⟩
    · exact Or.inl rfl
    · exact Or.inr hl
  have hz01 : zs.length = 0 ∨ zs.length = N := by
    rcases hzc with ⟨_, rfl⟩ | ⟨_, hl⟩
    · exact Or.inl rfl
    · exact Or.inr hl
  have honeN : xs.length = N ∨ ys.length = N ∨ zs.length = N := by
    rcases hsome with h | h | h
    · rcases hxc with ⟨h0, _⟩ | ⟨_, hl⟩
      · exact absurd h0 h
      · exact Or.inl hl
    · rcases hyc with ⟨h0, _⟩ | ⟨_, hl⟩
      · exact absurd h0 h
      · exact Or.inr (Or.inl hl)
    · rcases hzc with ⟨h0, _⟩ | ⟨_, hl⟩
      · exact absurd h0 h
      · exact Or.inr (Or.inr hl)
  have hmaxN : max xs.length (max ys.length zs.length) = N := by
    have hux : xs.length ≤ N := by rcases hx01 with h | h <;> omega
    have huy : ys.length ≤ N := by rcases hy01 with h | h <;> omega
    have huz : zs.length ≤ N := by rcases hz01 with h | h <;> omega
    apply le_antisymm
    · exact Nat.max_le.mpr ⟨hux, Nat.max_le.mpr ⟨huy, huz⟩⟩
    · rcases honeN with h | h | h
      · rw [← h]
        exact Nat.le_max_left _ _
      · calc N = ys.length := h.symm
          _ ≤ max ys.length zs.length := Nat.le_max_left _ _
          _ ≤ max xs.length (max ys.length zs.length) := Nat.le_max_right _ _
      · calc N = zs.length := h.symm
          _ ≤ max ys.length zs.length := Nat.le_max_right _ _
          _ ≤ max xs.length (max ys.length zs.length) := Nat.le_max_right _ _
  have hexl : (ExodusReader.expand_coord xs N).length = N := by
    unfold ExodusReader.expand_coord
    split
    · exact List.length_replicate _ _
    · next h =>
      rcases hx01 with h0 | h0
      · exact absurd h0 h
      · exact h0
  have heyl : (ExodusReader.expand_coord ys N).length = N := by
    unfold ExodusReader.expand_coord
    split
    · exact List.length_replicate _ _
    · next h =>
      rcases hy01 with h0 | h0
      · exact absurd h0 h
      · exact h0
  have hezl : (ExodusReader.expand_coord zs N).length = N := by
    unfold ExodusReader.expand_coord
    split
    · exact List.length_replicate _ _
    · next h =>
      rcases hz01 with h0 | h0
      · exact absurd h0 h
      · exact h0
  have hgc : ExodusReader.get_coords d = .ok
      (npVstackT (ExodusReader.expand_coord xs N)
        (ExodusReader.expand_coord ys N) (ExodusReader.expand_coord zs N)) := by
    simp only [ExodusReader.get_coords, hxv, hyv, hzv, NumArr.shape0]
    rw [hmaxN]
    rw [if_neg (by omega)]
    rw [if_pos ⟨by rw [hexl, heyl], by rw [heyl, hezl]⟩]
  have hlen : (npVstackT (ExodusReader.expand_coord xs N)
      (ExodusReader.expand_coord ys N) (ExodusReader.expand_coord zs N)).length
        = N := by
    rw [npVstackT_length _ _ _ (by rw [hexl, heyl]) (by rw [heyl, hezl]), hexl]
  refine ⟨_, hgc, hlen, ?_, ?_, ?_, ?_⟩
  · intro r hr
    obtain ⟨a, b2, c2, _, _, _, rfl⟩ := npVstackT_mem _ _ _ r hr
    rfl
  · intro hfx r hr
    obtain ⟨a, b2, c2, ha, _, _, rfl⟩ := npVstackT_mem _ _ _ r hr
    rcases hxc with ⟨_, hnil⟩ | ⟨hne2, _⟩
    · subst hnil
      have ha0 : a = 0 := List.eq_of_mem_replicate
        (by simpa [ExodusReader.expand_coord] using ha)
      simp [ha0]
    · exact absurd hfx hne2
  · intro hfy r hr
    obtain ⟨a, b2, c2, _, hb, _, rfl⟩ := npVstackT_mem _ _ _ r hr
    rcases hyc with ⟨_, hnil⟩ | ⟨hne2, _⟩
    · subst hnil
      have hb0 : b2 = 0 := List.eq_of_mem_replicate
        (by simpa [ExodusReader.expand_coord] using hb)
      simp [hb0]
    · exact absurd hfy hne2
  · intro hfz r hr
    obtain ⟨a, b2, c2, _, _, hc, rfl⟩ := npVstackT_mem _ _ _ r hr
    rcases hzc with ⟨_, hnil⟩ | ⟨hne2, _⟩
    · subst hnil
      have hc0 : c2 = 0 := List.eq_of_mem_replicate
        (by simpa [ExodusReader.expand_coord] using hc)
      simp [hc0]
    · exact absurd hfz hne2

/-- C3 witness: the theorem instantiated on a 2-D dataset with two nodes
and no z axis, matching the concrete scenario of the spec. -/
theorem coords_table_shape_witness :
    (0 < 2) ∧ dsOne.find "coordz" = none ∧
    (∃ c, ExodusReader.get_coords dsOne = .ok c ∧ c.length = 2 ∧
      (∀ r ∈ c, r.length = 3) ∧
      (dsOne.find "coordx" = none → ∀ r ∈ c, r.getD 0 0 = 0) ∧
      (dsOne.find "coordy" = none → ∀ r ∈ c, r.getD 1 0 = 0) ∧
      (dsOne.find "coordz" = none → ∀ r ∈ c, r.getD 2 0 = 0)) :=
  ⟨by decide, rfl, coords_table_shape dsOne 2 (by decide)
    (Or.inr ⟨[1, 2], rfl, rfl⟩) (Or.inr ⟨[3, 4], rfl, rfl⟩) (Or.inl rfl)
    (Or.inl (by decide))⟩

/-- C2: on a valid container file (all four name tables present, shared
global table present and wide enough for every declared global name, and
readable coordinates), `read_all_sim_data` succeeds; the keys of
`node_vars` are exactly the declared nodal names, the keys of `glob_vars`
exactly the declared global names, and the keys of `elem_vars` exactly
the declared elemental names paired with every block number 1..B. -/
theorem read_all_keys_exact (d : Dataset)
    (nns ens gns ebs : List String) (gmtx : List (List Int))
    (cds : List (List Int))
    (hn : ExodusReader.get_node_var_names d = some nns)
    (he : ExodusReader.get_elem_var_names d = some ens)
    (hg : ExodusReader.get_glob_var_names d = some gns)
    (hb : ExodusReader.get_names d (some "eb_names") = some ebs)
    (hgv : d.find "vals_glo_var" = some (Val.num2 gmtx))
    (hgw : ∀ row ∈ gmtx, gns.length ≤ row.length)
    (hc : ExodusReader.get_coords d = .ok cds) :
    ∃ sd, ExodusReader.read_all_sim_data d = .ok sd ∧
      (∃ nv, sd.node_vars = some nv ∧ ∀ k, k ∈ dkeys nv ↔ k ∈ nns) ∧
      (∃ gv, sd.glob_vars = some gv ∧ ∀ k, k ∈ dkeys gv ↔ k ∈ gns) ∧
      (∃ ev, sd.elem_vars = some ev ∧ ∀ p : String × Nat,
        p ∈ dkeys ev ↔ (p.1 ∈ ens ∧ 1 ≤ p.2 ∧ p.2 ≤ ebs.length)) := by
  have hnb : ExodusReader.get_num_elem_blocks d = .ok ebs.length := by
    simp [ExodusReader.get_num_elem_blocks, hb]
  have hks : ExodusReader.get_connectivity_names d = .ok
      (((List.range ebs.length).map
          (fun bb => "connect" ++ toString (bb + 1))).filter
        (fun k => (d.find k).isSome)) := by
    simp [ExodusReader.get_connectivity_names, hnb]
  have hconn : ExodusReader.get_connectivity d = .ok
      ((((List.range ebs.length).map
          (fun bb => "connect" ++ toString (bb + 1))).filter
        (fun k => (d.find k).isSome)).foldl
        (fun m k => dinsert m k (ExodusReader.get_var d (some k))) []) := by
    simp [ExodusReader.get_connectivity, hks]
  -- nodal variables
  have hnodeok : ∀ m nn, nn ∈ nns →
      ExodusReader.nodeStep d (some nns) m nn =
        .ok (dinsert m nn (ExodusReader.get_var d (some ("vals_nod_var" ++
          toString ((firstIdx nn nns).getD 0 + 1))))) := by
    intro m nn hnn
    obtain ⟨i, hi⟩ := firstIdx_some_of_mem nn nns hnn
    simp [ExodusReader.nodeStep, npFirstIdx, hi]
  obtain ⟨nv, hnv, hnvk, _⟩ := foldlM_dinsert_ok
    (ExodusReader.nodeStep d (some nns))
    (fun nn => ExodusReader.get_var d (some ("vals_nod_var" ++
      toString ((firstIdx nn nns).getD 0 + 1)))) nns hnodeok
  have hnode : ExodusReader.get_all_node_vars d = .ok (some nv) := by
    simp only [ExodusReader.get_all_node_vars, ExodusReader.get_node_vars, hn]
    rw [hnv]
  -- global variables
  have hglobok : ∀ m nn, nn ∈ gns →
      ExodusReader.globStep d gns m nn =
        .ok (dinsert m nn (NumArr.one (gmtx.map
          (fun row => row.getD ((firstIdx nn gns).getD 0) 0)))) := by
    intro m nn hnn
    obtain ⟨i, hi⟩ := firstIdx_some_of_mem nn gns hnn
    have hil : i < gns.length := (firstIdx_spec nn gns i hi).1
    have hcond : gmtx.all (fun row => decide (i < row.length)) = true := by
      rw [List.all_eq_true]
      intro row hrow
      exact decide_eq_true (lt_of_lt_of_le hil (hgw row hrow))
    simp [ExodusReader.globStep, hi, hgv, hcond]
  obtain ⟨gv, hgvf, hgvk, _⟩ := foldlM_dinsert_ok
    (ExodusReader.globStep d gns)
    (fun nn => NumArr.one (gmtx.map
      (fun row => row.getD ((firstIdx nn gns).getD 0) 0))) gns hglobok
  have hglob : ExodusReader.get_all_glob_vars d = .ok (some gv) := by
    simp only [ExodusReader.get_all_glob_vars, ExodusReader.get_glob_vars, hg]
    rw [hgvf]
  -- elemental variables
  have hpairs : ExodusReader.get_elem_var_names_and_blocks d = .ok (some
      (ens.flatMap (fun nn => ((List.range ebs.length).map (· + 1)).map
        (fun bb => (nn, bb))))) := by
    simp [ExodusReader.get_elem_var_names_and_blocks, hnb, he]
  have helemok : ∀ m p, p ∈ ens.flatMap
      (fun nn => ((List.range ebs.length).map (· + 1)).map
        (fun bb => (nn, bb))) →
      ExodusReader.elemStep d ens m p =
        .ok (dinsert m p (ExodusReader.get_var d (some
          (((ExodusReader.get_key p.1 ens "vals_elem_var").getD "") ++ "eb" ++
            toString p.2)))) := by
    intro m p hp
    have hp1 : p.1 ∈ ens := by
      rcases List.mem_flatMap.mp hp with ⟨nn, hnn, hp2⟩
      rcases List.mem_map.mp hp2 with ⟨bb, _, rfl⟩
      exact hnn
    obtain ⟨i, hi⟩ := firstIdx_some_of_mem p.1 ens hp1
    have hk : ExodusReader.get_key p.1 ens "vals_elem_var" =
        some ("vals_elem_var" ++ toString (i + 1)) := by
      simp [ExodusReader.get_key, hi]
    simp [ExodusReader.elemStep, hk]
  obtain ⟨ev, hevf, hevk, _⟩ := foldlM_dinsert_ok (ExodusReader.elemStep d ens)
    (fun p => ExodusReader.get_var d (some
      (((ExodusReader.get_key p.1 ens "vals_elem_var").getD "") ++ "eb" ++
        toString p.2)))
    (ens.flatMap (fun nn => ((List.range ebs.length).map (· + 1)).map
      (fun bb => (nn, bb)))) helemok
  have helem : ExodusReader.get_all_elem_vars d = .ok (some ev) := by
    simp only [ExodusReader.get_all_elem_vars, hpairs]
    simp only [ExodusReader.get_elem_vars, he]
    rw [hevf]
  -- assemble the record
  have hread : ExodusReader.read_all_sim_data d = .ok
      { time := ExodusReader.get_time d, coords := cds,
        connect := some ((((List.range ebs.length).map
            (fun bb => "connect" ++ toString (bb + 1))).filter
          (fun k => (d.find k).isSome)).foldl
          (fun m k => dinsert m k (ExodusReader.get_var d (some k))) []),
        side_sets := ExodusReader.get_all_sidesets d, node_vars := some nv,
        elem_vars := some ev, glob_vars := some gv } := by
    simp only [ExodusReader.read_all_sim_data, hc, hconn, hnode, helem, hglob]
  refine ⟨_, hread, ⟨nv, rfl, hnvk⟩, ⟨gv, rfl, hgvk⟩, ⟨ev, rfl, ?_⟩⟩
  intro p
  rw [hevk p, List.mem_flatMap]
  constructor
  · rintro ⟨nn, hnn, hp⟩
    rcases List.mem_map.mp hp with ⟨bb, hbb, rfl⟩
    rcases List.mem_map.mp hbb with ⟨ii, hii, rfl⟩
    have hiR := List.mem_range.mp hii
    exact ⟨hnn, by show 1 ≤ ii + 1; omega, by show ii + 1 ≤ ebs.length; omega⟩
  · rintro ⟨h1, h2, h3⟩
    refine ⟨p.1, h1, List.mem_map.mpr ⟨p.2,
      List.mem_map.mpr ⟨p.2 - 1, List.mem_range.mpr (by omega), by omega⟩, rfl⟩⟩

/-- C2 witness: the theorem instantiated on a complete small dataset with
one nodal, one elemental and one global variable and one block. -/
theorem read_all_keys_exact_witness :
    ExodusReader.get_coords dsOne = .ok [[1, 3, 0], [2, 4, 0]] ∧
    (∀ row ∈ [[(7 : Int)]], (["react"] : List String).length ≤ row.length) ∧
    (∃ sd, ExodusReader.read_all_sim_data dsOne = .ok sd ∧
      (∃ nv, sd.node_vars = some nv ∧ ∀ k, k ∈ dkeys nv ↔ k ∈ ["disp_x"]) ∧
      (∃ gv, sd.glob_vars = some gv ∧ ∀ k, k ∈ dkeys gv ↔ k ∈ ["react"]) ∧
      (∃ ev, sd.elem_vars = some ev ∧ ∀ p : String × Nat,
        p ∈ dkeys ev ↔ (p.1 ∈ ["strain_xx"] ∧ 1 ≤ p.2 ∧
          p.2 ≤ (["block1"] : List String).length))) :=
  ⟨rfl, by decide,
    read_all_keys_exact dsOne ["disp_x"] ["strain_xx"] ["react"] ["block1"]
      [[7]] [[1, 3, 0], [2, 4, 0]] rfl rfl rfl rfl rfl (by decide) rfl⟩

end Mooseherder
